import Mathlib

/-!
Verification of the tag-suggestion subsystem (AiService) of the
product-catalog service.

The embedding below models the three functions of `AiService`
(`suggestTags`, `parseTagsFromResponse`, `generateFallbackTags`) as pure
Lean functions over `List Char` strings.  JavaScript behaviour is mapped
as follows:

* a JS string is a `List Char` (`Str`);
* `String.prototype.toLowerCase` is modelled per-character on the ASCII
  range (`Char.toLower`); all data handled by the claims is ASCII;
* `String.prototype.trim`, `split`, `includes`, the regexes
  `/\[.*?\]/` (first lazily-bracketed single-line substring) and
  `/"([^"]+)"/g` (all non-overlapping quoted chunks) are modelled by
  executable recursions with the same observable behaviour on the
  ASCII fragment (JS whitespace and line terminators are modelled by
  their ASCII members);
* `JSON.parse` is modelled by `jsonParse`, an executable single-pass
  JSON reader (numbers are kept as lexemes: only their string-ness is
  ever observed by the code);
* a thrown exception is `Except.error ()`;
* the network call is replaced by a `ModelResult` parameter describing
  the outcome of the fetch: any failure (network error, timeout,
  non-2xx status, body that is not JSON) versus a success carrying the
  raw generated text, exactly the distinction the `try/catch` in
  `suggestTags` observes.
-/

namespace AiService

/-- Strings as lists of characters. -/
abbrev Str := List Char

/-- Shorthand turning a Lean string literal into a `Str`. -/
def S (s : String) : Str := s.data

/-- Model of the JS whitespace class `\s` (ASCII members). -/
def jsWsChar (c : Char) : Bool :=
  c = ' ' || c = '\t' || c = '\n' || c = '\r' || c = Char.ofNat 11 || c = Char.ofNat 12

/-- JSON whitespace accepted by `JSON.parse` between tokens. -/
def jsonWsChar (c : Char) : Bool :=
  c = ' ' || c = '\t' || c = '\n' || c = '\r'

/-- Model of `String.prototype.toLowerCase` (ASCII range). -/
def sToLower (s : Str) : Str := s.map Char.toLower

/-- Model of `String.prototype.trim`. -/
def jsTrim (s : Str) : Str :=
  ((s.dropWhile jsWsChar).reverse.dropWhile jsWsChar).reverse

/-- Model of `String.prototype.includes`: `sub` occurs as a contiguous
substring of `s`. -/
def jsIncludes (s sub : Str) : Bool :=
  if List.isPrefixOf sub s then true
  else
    match s with
    | [] => false
    | _ :: rest => jsIncludes rest sub

/-- Model of `s.split("\n")`: split at every newline, keeping empty
pieces. -/
def splitNl : Str → List Str
  | [] => [[]]
  | c :: rest =>
    if c = '\n' then [] :: splitNl rest
    else
      match splitNl rest with
      | [] => [[c]]
      | t :: ts => (c :: t) :: ts

/-- Separator class of the regex `[\s\-_]` used to tokenize the name. -/
def sepChar (c : Char) : Bool := jsWsChar c || c = '-' || c = '_'

/-- Worker for `splitSeps`; `acc` holds the current token reversed.
A separator run is skipped as a unit: the token is emitted when the run
ends (or the string ends), matching `s.split(/[\s\-_]+/)`. -/
def splitSepsGo : Str → Str → List Str
  | [], acc => [acc.reverse]
  | c :: rest, acc =>
    if sepChar c then
      match rest with
      | [] => [acc.reverse, []]
      | d :: _ =>
        if sepChar d then splitSepsGo rest acc
        else acc.reverse :: splitSepsGo rest []
    else splitSepsGo rest (c :: acc)

/-- Model of `s.split(/[\s\-_]+/)`. -/
def splitSeps (s : Str) : List Str := splitSepsGo s []

/-- Worker for `quotedChunks`.  The second argument is `none` outside a
quoted region, or `some acc` with the (reversed) content read so far
after an opening quote.  An immediately repeated quote re-opens (the
regex `"([^"]+)"` needs at least one inner character), and an
unterminated quote yields no further match, as in JS. -/
def quotedChunksGo : Str → Option Str → List Str
  | [], _ => []
  | c :: rest, none =>
    if c = '"' then quotedChunksGo rest (some []) else quotedChunksGo rest none
  | c :: rest, some acc =>
    if c = '"' then
      if acc.isEmpty then quotedChunksGo rest (some [])
      else ('"' :: (acc.reverse ++ ['"'])) :: quotedChunksGo rest none
    else quotedChunksGo rest (some (c :: acc))

/-- Model of `line.match(/"([^"]+)"/g)`: the list of full matches
(quotes included), or `[]` when the JS call returns `null`. -/
def quotedChunks (line : Str) : List Str := quotedChunksGo line none

/-- Reads forward from just after a `[` to the first `]`, failing if a
line terminator or the end of the string intervenes (the `.` of
`/\[.*?\]/` does not match line terminators). -/
def scanToClose : Str → Option Str
  | [] => none
  | c :: rest =>
    if c = ']' then some [']']
    else if c = '\n' ∨ c = '\r' then none
    else
      match scanToClose rest with
      | some cs => some (c :: cs)
      | none => none

/-- Model of `response.match(/\[.*?\]/)`: the leftmost bracketed
single-line substring, content minimal, or `none`. -/
def firstBracket : Str → Option Str
  | [] => none
  | c :: rest =>
    if c = '[' then
      match scanToClose rest with
      | some cs => some ('[' :: cs)
      | none => firstBracket rest
    else firstBracket rest

/-! ### A model of `JSON.parse`

`pstep` is a single fueled step function over an explicit stack of
partially built containers, so that the whole parser is structurally
recursive (hence kernel-reducible on concrete inputs).  Numbers are
kept as their lexemes; the code only ever asks whether a value is a
string. -/

/-- JSON values as produced by the model of `JSON.parse`. -/
inductive Json where
  | str (s : Str) : Json
  | numL (lexeme : Str) : Json
  | jbool (b : Bool) : Json
  | jnull : Json
  | arr (xs : List Json) : Json
  | obj (fs : List (Str × Json)) : Json

/-- A partially built JSON container awaiting further elements. -/
inductive JFrame where
  | farr (done : List Json) : JFrame
  | fobj (done : List (Str × Json)) (key : Str) : JFrame

/-- Parser state: expecting a value, or having just finished one. -/
inductive PState where
  | val (s : Str) (stk : List JFrame) : PState
  | fin (v : Json) (s : Str) (stk : List JFrame) : PState

/-- Drop JSON inter-token whitespace. -/
def skipJWs (s : Str) : Str := s.dropWhile jsonWsChar

/-- The character denoted by a single-character JSON escape. -/
def escChar (c : Char) : Option Char :=
  if c = '"' then some '"'
  else if c = '\\' then some '\\'
  else if c = '/' then some '/'
  else if c = 'b' then some (Char.ofNat 8)
  else if c = 'f' then some (Char.ofNat 12)
  else if c = 'n' then some '\n'
  else if c = 'r' then some '\r'
  else if c = 't' then some '\t'
  else none

/-- Value of a hexadecimal digit. -/
def hexVal (c : Char) : Option Nat :=
  if '0' ≤ c ∧ c ≤ '9' then some (c.toNat - 48)
  else if 'a' ≤ c ∧ c ≤ 'f' then some (c.toNat - 87)
  else if 'A' ≤ c ∧ c ≤ 'F' then some (c.toNat - 55)
  else none

/-- JSON string body, entered just after the opening quote; returns the
decoded content and the rest after the closing quote.  Unescaped
control characters are rejected, as in `JSON.parse`. -/
def parseStrBody : Str → Option (Str × Str)
  | [] => none
  | c :: rest =>
    if c = '"' then some ([], rest)
    else if c = '\\' then
      match rest with
      | 'u' :: h1 :: h2 :: h3 :: h4 :: rest2 =>
        match hexVal h1, hexVal h2, hexVal h3, hexVal h4 with
        | some a, some b, some c2, some d =>
          match parseStrBody rest2 with
          | some (cs, r) => some (Char.ofNat (((a * 16 + b) * 16 + c2) * 16 + d) :: cs, r)
          | none => none
        | _, _, _, _ => none
      | e :: rest2 =>
        match escChar e with
        | some c2 =>
          match parseStrBody rest2 with
          | some (cs, r) => some (c2 :: cs, r)
          | none => none
        | none => none
      | [] => none
    else if c.toNat < 32 then none
    else
      match parseStrBody rest with
      | some (cs, r) => some (c :: cs, r)
      | none => none

/-- Optional exponent part of a JSON number (lexeme, rest); yields
`([], s)` when no well-formed exponent starts `s`. -/
def expPart (s : Str) : Str × Str :=
  match s with
  | e :: rest =>
    if e = 'e' ∨ e = 'E' then
      match rest with
      | '+' :: c :: r =>
        if c.isDigit then (e :: '+' :: c :: r.takeWhile Char.isDigit, r.dropWhile Char.isDigit)
        else ([], s)
      | '-' :: c :: r =>
        if c.isDigit then (e :: '-' :: c :: r.takeWhile Char.isDigit, r.dropWhile Char.isDigit)
        else ([], s)
      | c :: r =>
        if c.isDigit then (e :: c :: r.takeWhile Char.isDigit, r.dropWhile Char.isDigit)
        else ([], s)
      | [] => ([], s)
    else ([], s)
  | [] => ([], s)

/-- Optional fraction-then-exponent part of a JSON number. -/
def fracExpPart (s : Str) : Str × Str :=
  match s with
  | '.' :: c :: r =>
    if c.isDigit then
      let fr := '.' :: c :: r.takeWhile Char.isDigit
      let (ex, r2) := expPart (r.dropWhile Char.isDigit)
      (fr ++ ex, r2)
    else expPart s
  | _ => expPart s

/-- JSON number starting at the head of `s`: lexeme and rest, `none`
when no number starts here. -/
def parseNumber (s : Str) : Option (Str × Str) :=
  let (neg, s1) : Str × Str :=
    match s with
    | '-' :: r => (['-'], r)
    | _ => ([], s)
  match s1 with
  | [] => none
  | c :: rest =>
    if c = '0' then
      let (fr, r2) := fracExpPart rest
      some (neg ++ '0' :: fr, r2)
    else if c.isDigit then
      let ds := rest.takeWhile Char.isDigit
      let (fr, r2) := fracExpPart (rest.dropWhile Char.isDigit)
      some (neg ++ c :: (ds ++ fr), r2)
    else none

/-- One fueled run of the JSON reader; every recursive call consumes at
least one character, so `length + 2` fuel always suffices. -/
def pstep : Nat → PState → Option (Json × Str)
  | 0, _ => none
  | Nat.succ fuel, PState.val s stk =>
    match skipJWs s with
    | [] => none
    | c :: rest =>
      if c = '"' then
        match parseStrBody rest with
        | some (cs, rest2) => pstep fuel (PState.fin (Json.str cs) rest2 stk)
        | none => none
      else if c = '[' then
        match skipJWs rest with
        | ']' :: rest2 => pstep fuel (PState.fin (Json.arr []) rest2 stk)
        | s2 => pstep fuel (PState.val s2 (JFrame.farr [] :: stk))
      else if c = '{' then
        match skipJWs rest with
        | '}' :: rest2 => pstep fuel (PState.fin (Json.obj []) rest2 stk)
        | '"' :: rest2 =>
          match parseStrBody rest2 with
          | some (key, rest3) =>
            match skipJWs rest3 with
            | ':' :: rest4 => pstep fuel (PState.val rest4 (JFrame.fobj [] key :: stk))
            | _ => none
          | none => none
        | _ => none
      else if List.isPrefixOf (S "true") (c :: rest) then
        pstep fuel (PState.fin (Json.jbool true) (List.drop 4 (c :: rest)) stk)
      else if List.isPrefixOf (S "false") (c :: rest) then
        pstep fuel (PState.fin (Json.jbool false) (List.drop 5 (c :: rest)) stk)
      else if List.isPrefixOf (S "null") (c :: rest) then
        pstep fuel (PState.fin Json.jnull (List.drop 4 (c :: rest)) stk)
      else
        match parseNumber (c :: rest) with
        | some (lex, rest2) => pstep fuel (PState.fin (Json.numL lex) rest2 stk)
        | none => none
  | Nat.succ fuel, PState.fin v s stk =>
    match stk with
    | [] => some (v, s)
    | JFrame.farr done :: stk2 =>
      match skipJWs s with
      | ',' :: rest2 => pstep fuel (PState.val rest2 (JFrame.farr (v :: done) :: stk2))
      | ']' :: rest2 => pstep fuel (PState.fin (Json.arr (List.reverse (v :: done))) rest2 stk2)
      | _ => none
    | JFrame.fobj done key :: stk2 =>
      match skipJWs s with
      | ',' :: rest2 =>
        match skipJWs rest2 with
        | '"' :: rest3 =>
          match parseStrBody rest3 with
          | some (k2, rest4) =>
            match skipJWs rest4 with
            | ':' :: rest5 => pstep fuel (PState.val rest5 (JFrame.fobj ((key, v) :: done) k2 :: stk2))
            | _ => none
          | none => none
        | _ => none
      | '}' :: rest2 => pstep fuel (PState.fin (Json.obj (List.reverse ((key, v) :: done))) rest2 stk2)
      | _ => none

/-- Model of `JSON.parse`: a single value followed only by whitespace,
otherwise failure. -/
def jsonParse (s : Str) : Option Json :=
  match pstep (s.length + 2) (PState.val s []) with
  | some (v, rest) => if (skipJWs rest).isEmpty then some v else none
  | none => none

/-- The `Array.isArray(tags) && tags.every(tag => typeof tag === "string")`
check: the list of strings when the value is an array of strings. -/
def getStrs : List Json → Option (List Str)
  | [] => some []
  | Json.str s :: rest =>
    match getStrs rest with
    | some ss => some (s :: ss)
    | none => none
  | _ => none

/-- String-array view of a JSON value. -/
def asStringArray : Json → Option (List Str)
  | Json.arr xs => getStrs xs
  | _ => none

/-! ### The Response Parser (`parseTagsFromResponse`) -/

/-- Strip every `"` from a quoted match: `match.replace(/"/g, "")`. -/
def stripQuotes (chunk : Str) : Str := chunk.filter (fun c => c != '"')

/-- Body of the `quotedMatches.forEach` loop: normalize the match and
append it unless it is empty or already present. -/
def procChunk (tags : List Str) (chunk : Str) : List Str :=
  let tag := sToLower (jsTrim (stripQuotes chunk))
  if tag ≠ [] ∧ tag ∉ tags then tags ++ [tag] else tags

/-- The permissive strategy's accumulation: over the non-blank lines of
the response, collect normalized quoted substrings with dedup. -/
def permissiveScan (response : Str) : List Str :=
  let lines := (splitNl response).filter (fun l => !(jsTrim l).isEmpty)
  lines.foldl (fun tags line => (quotedChunks line).foldl procChunk tags) []

/-- Tail of `parseTagsFromResponse` after the structured path declined:
return the first five permissive tags, or throw when there are none. -/
def permissivePart (response : Str) : Except Unit (List Str) :=
  let tags := permissiveScan response
  if 0 < tags.length then Except.ok (tags.take 5) else Except.error ()

/-- Model of `AiService.parseTagsFromResponse`.  The whole body sits in
one `try`; a `JSON.parse` failure on the matched bracketed substring is
caught by the outer handler and re-thrown, so it produces an error
without reaching the permissive scan. -/
def parseTagsFromResponse (response : Str) : Except Unit (List Str) :=
  match firstBracket response with
  | some b =>
    match jsonParse b with
    | none => Except.error ()
    | some v =>
      match asStringArray v with
      | some tags => Except.ok (tags.take 5)
      | none => permissivePart response
  | none => permissivePart response

/-- Outcome of the structured strategy alone: `some tags` when the
first bracketed substring is valid JSON and an array of strings. -/
def structuredResult (raw : Str) : Option (List Str) :=
  match firstBracket raw with
  | none => none
  | some b =>
    match jsonParse b with
    | none => none
    | some v => asStringArray v

/-! ### The Fallback Heuristic Extractor (`generateFallbackTags`) -/

/-- The fixed keyword vocabulary, in source order. -/
def keywords : List Str :=
  [S "electronics", S "gadget", S "device", S "tech", S "digital",
   S "wireless", S "bluetooth", S "smart", S "portable", S "mobile",
   S "home", S "kitchen", S "outdoor", S "sports", S "fitness",
   S "clothing", S "fashion", S "accessory", S "beauty", S "health",
   S "book", S "education", S "toy", S "game", S "entertainment",
   S "tool", S "automotive", S "garden", S "office", S "computer"]

/-- The fixed stopword set used when tokenizing the name. -/
def stopwords : List Str := [S "the", S "and", S "for", S "with"]

/-- Model of `AiService.generateFallbackTags`. -/
def generateFallbackTags (name description : Str) : List Str :=
  let text := sToLower (name ++ ' ' :: description)
  let kwTags := keywords.foldl
    (fun acc kw => if jsIncludes text kw = true ∧ kw ∉ acc then acc ++ [kw] else acc) []
  let seeded := if kwTags = [] then [S "product", S "item", S "merchandise"] else kwTags
  let nameWords := (splitSeps (sToLower name)).filter
    (fun w => decide (2 < w.length) && !(stopwords.contains w))
  let result := nameWords.foldl
    (fun acc w => if w ∉ acc ∧ acc.length < 5 then acc ++ [w] else acc) seeded
  result.take 5

/-! ### The Suggestion Orchestrator (`suggestTags`) -/

/-- Outcome of the single fetch to the model endpoint, as distinguished
by the `try/catch` in `suggestTags`: any of the failure constructors
means an exception was thrown before the response text was available
(connection refused, timeout, non-2xx status, body that is not JSON);
`success raw` means a 2xx response whose body carried the generated
text `raw`. -/
inductive ModelResult where
  | networkError : ModelResult
  | timeout : ModelResult
  | badStatus (status : Nat) : ModelResult
  | badBody : ModelResult
  | success (raw : Str) : ModelResult

/-- Did the model call fail before producing text? -/
def modelFailed : ModelResult → Bool
  | ModelResult.success _ => false
  | _ => true

/-- Did the structured parse path produce the returned list? -/
def viaStructured : ModelResult → Bool
  | ModelResult.success raw => (structuredResult raw).isSome
  | _ => false

/-- Model of `AiService.suggestTags`.  The prompt only influences the
model's reply, which is abstracted by `outcome`; every exception inside
the `try` (model failure or parse failure) lands in the `catch`, which
returns the fallback tags. -/
def suggestTags (name description : Str) (outcome : ModelResult) : List Str :=
  match outcome with
  | ModelResult.success raw =>
    match parseTagsFromResponse raw with
    | Except.ok tags => tags
    | Except.error _ => generateFallbackTags name description
  | _ => generateFallbackTags name description

/-! ### Helper lemmas -/

/-- Packing a valid codepoint and unpacking it is the identity. -/
theorem toNat_ofNat_valid {n : Nat} (h : n.isValidChar) : (Char.ofNat n).toNat = n := by
  simp only [Char.ofNat, dif_pos h, Char.ofNatAux, Char.toNat, UInt32.toNat,
    BitVec.toNat_ofNatLt]

/-- Characters outside the upper-case ASCII range are fixed by
`Char.toLower`. -/
theorem toLower_fix {c : Char} (h : ¬(c.toNat ≥ 65 ∧ c.toNat ≤ 90)) : c.toLower = c := by
  simp only [Char.toLower]
  rw [if_neg h]

/-- The result of `Char.toLower` is never an upper-case ASCII letter. -/
theorem toLower_not_upper (c : Char) : ¬((c.toLower).toNat ≥ 65 ∧ (c.toLower).toNat ≤ 90) := by
  simp only [Char.toLower]
  by_cases h : c.toNat ≥ 65 ∧ c.toNat ≤ 90
  · rw [if_pos h, toNat_ofNat_valid (Or.inl (by omega))]
    omega
  · rw [if_neg h]
    exact h

/-- `Char.toLower` is idempotent. -/
theorem toLower_idem (c : Char) : (c.toLower).toLower = c.toLower :=
  toLower_fix (toLower_not_upper c)

/-- A predicate preserved by every step of a `foldl` holds of its
result. -/
theorem foldl_pres {α β : Type} {f : α → β → α} {P : α → Prop} :
    ∀ {l : List β}, (∀ a b, b ∈ l → P a → P (f a b)) → ∀ {a}, P a → P (l.foldl f a) := by
  intro l
  induction l with
  | nil => intro _ a ha; exact ha
  | cons x xs ih =>
    intro hf a ha
    simp only [List.foldl_cons]
    exact ih (fun a b hb => hf a b (List.mem_cons_of_mem _ hb)) (hf a x (List.mem_cons_self _ _) ha)

/-- Mapping a function that fixes every element is the identity. -/
theorem map_id_of_mem {α : Type} {f : α → α} :
    ∀ {l : List α}, (∀ a ∈ l, f a = a) → l.map f = l := by
  intro l
  induction l with
  | nil => intro _; rfl
  | cons x xs ih =>
    intro h
    simp only [List.map_cons]
    rw [h x (List.mem_cons_self _ _), ih fun a ha => h a (List.mem_cons_of_mem _ ha)]

/-- Every character of every token of `splitSepsGo s acc` comes from
`s` or from the pending accumulator. -/
theorem splitSepsGo_chars :
    ∀ (s acc t : Str), t ∈ splitSepsGo s acc → ∀ c ∈ t, c ∈ s ∨ c ∈ acc := by
  intro s
  induction s with
  | nil =>
    intro acc t ht c hc
    simp only [splitSepsGo, List.mem_singleton] at ht
    subst ht
    exact Or.inr (List.mem_reverse.mp hc)
  | cons x rest ih =>
    intro acc t ht c hc
    simp only [splitSepsGo] at ht
    by_cases hx : sepChar x = true
    · rw [if_pos hx] at ht
      cases rest with
      | nil =>
        rcases List.mem_cons.mp ht with h | h
        · subst h
          exact Or.inr (List.mem_reverse.mp hc)
        · simp only [List.mem_singleton] at h
          subst h
          cases hc
      | cons d rest2 =>
        dsimp only at ht
        by_cases hd : sepChar d = true
        · rw [if_pos hd] at ht
          rcases ih acc t ht c hc with h | h
          · exact Or.inl (List.mem_cons_of_mem _ h)
          · exact Or.inr h
        · rw [if_neg hd] at ht
          rcases List.mem_cons.mp ht with h | h
          · subst h
            exact Or.inr (List.mem_reverse.mp hc)
          · rcases ih [] t h c hc with h2 | h2
            · exact Or.inl (List.mem_cons_of_mem _ h2)
            · cases h2
    · rw [if_neg hx] at ht
      rcases ih (x :: acc) t ht c hc with h | h
      · exact Or.inl (List.mem_cons_of_mem _ h)
      · rcases List.mem_cons.mp h with h2 | h2
        · subst h2
          exact Or.inl (List.mem_cons_self _ _)
        · exact Or.inr h2

/-- Every character of a token of `splitSeps s` occurs in `s`. -/
theorem splitSeps_chars {s t : Str} (ht : t ∈ splitSeps s) : ∀ c ∈ t, c ∈ s := by
  intro c hc
  rcases splitSepsGo_chars s [] t ht c hc with h | h
  · exact h
  · cases h

/-- Invariant shared by both tag-accumulating loops: no duplicates and
no empty entries. -/
def TagInv (l : List Str) : Prop := l.Nodup ∧ ∀ t ∈ l, t ≠ []

/-- The empty accumulator satisfies the invariant. -/
theorem tagInv_nil : TagInv [] := ⟨List.nodup_nil, by intro t ht; cases ht⟩

/-- Appending a fresh non-empty tag preserves the invariant. -/
theorem tagInv_snoc {l : List Str} {t : Str} (hl : TagInv l) (ht : t ≠ []) (hm : t ∉ l) :
    TagInv (l ++ [t]) := by
  constructor
  · rw [List.nodup_append]
    exact ⟨hl.1, List.nodup_singleton _, by
      intro a ha hb
      rw [List.mem_singleton] at hb
      subst hb
      exact hm ha⟩
  · intro a ha
    rcases List.mem_append.mp ha with h | h
    · exact hl.2 a h
    · rw [List.mem_singleton] at h
      subst h
      exact ht

/-- One step of the permissive loop preserves the invariant. -/
theorem procChunk_inv {tags : List Str} (chunk : Str) (h : TagInv tags) :
    TagInv (procChunk tags chunk) := by
  unfold procChunk
  dsimp only
  split
  next hc => exact tagInv_snoc h hc.1 hc.2
  next => exact h

/-- The permissive accumulation never produces duplicates or empty
tags. -/
theorem permissiveScan_inv (r : Str) : TagInv (permissiveScan r) := by
  unfold permissiveScan
  exact foldl_pres
    (fun tags line _ h => foldl_pres (fun a chunk _ ha => procChunk_inv chunk ha) h)
    tagInv_nil

/-- A prefix of a list satisfying the invariant satisfies it too. -/
theorem tagInv_take {l : List Str} (n : Nat) (h : TagInv l) : TagInv (l.take n) :=
  ⟨(List.take_sublist n l).nodup h.1, fun t ht => h.2 t (List.mem_of_mem_take ht)⟩

/-- Membership characterization for the fallback output: every tag is a
vocabulary keyword, one of the three generic baseline tags, or a token
of the lowercased name of length at least three. -/
theorem generateFallbackTags_mem {name description t : Str}
    (h : t ∈ generateFallbackTags name description) :
    t ∈ keywords ∨ t ∈ [S "product", S "item", S "merchandise"] ∨
      (t ∈ splitSeps (sToLower name) ∧ 2 < t.length) := by
  unfold generateFallbackTags at h
  replace h := List.mem_of_mem_take h
  refine foldl_pres (P := fun acc => ∀ x ∈ acc,
      x ∈ keywords ∨ x ∈ [S "product", S "item", S "merchandise"] ∨
        (x ∈ splitSeps (sToLower name) ∧ 2 < x.length)) ?_ ?_ t h
  · intro acc w hw hacc x hx
    split at hx
    · rcases List.mem_append.mp hx with h2 | h2
      · exact hacc x h2
      · rw [List.mem_singleton] at h2
        subst h2
        rcases List.mem_filter.mp hw with ⟨hmem, hp⟩
        rcases Bool.and_eq_true_iff.mp hp with ⟨hlen, _⟩
        exact Or.inr (Or.inr ⟨hmem, of_decide_eq_true hlen⟩)
    · exact hacc x hx
  · intro x hx
    split at hx
    · exact Or.inr (Or.inl hx)
    · refine Or.inl ?_
      refine foldl_pres (P := fun acc => ∀ y ∈ acc, y ∈ keywords) ?_ ?_ x hx
      · intro acc kw hkw hacc y hy
        split at hy
        · rcases List.mem_append.mp hy with h2 | h2
          · exact hacc y h2
          · rw [List.mem_singleton] at h2
            subst h2
            exact hkw
        · exact hacc y hy
      · intro y hy
        cases hy

/-- Every keyword of the vocabulary is a non-empty, fully lowercase
string. -/
theorem keywords_wellformed : ∀ kw ∈ keywords, kw ≠ [] ∧ sToLower kw = kw := by decide

/-- The three baseline tags are non-empty, lowercase and distinct. -/
theorem baseline_wellformed :
    (∀ t ∈ [S "product", S "item", S "merchandise"], t ≠ [] ∧ sToLower t = t) ∧
      List.Nodup [S "product", S "item", S "merchandise"] := by decide

/-- The fallback output satisfies the tag invariant (no duplicates, no
empty entries). -/
theorem generateFallbackTags_inv (name description : Str) :
    TagInv (generateFallbackTags name description) := by
  unfold generateFallbackTags
  refine tagInv_take 5 ?_
  refine foldl_pres (P := TagInv) ?_ ?_
  · intro acc w hw hacc
    split
    next hcond =>
      refine tagInv_snoc hacc ?_ hcond.1
      rcases List.mem_filter.mp hw with ⟨_, hp⟩
      rcases Bool.and_eq_true_iff.mp hp with ⟨hlen, _⟩
      have : 2 < w.length := of_decide_eq_true hlen
      intro hnil
      subst hnil
      simp at this
    next => exact hacc
  · split
    next => exact ⟨baseline_wellformed.2, fun t ht => (baseline_wellformed.1 t ht).1⟩
    next =>
      refine foldl_pres (P := TagInv) ?_ tagInv_nil
      intro acc kw hkw hacc
      split
      next hcond => exact tagInv_snoc hacc (keywords_wellformed kw hkw).1 hcond.2
      next => exact hacc

/-- The fallback list always has between one and five entries. -/
theorem generateFallbackTags_length (name description : Str) :
    1 ≤ (generateFallbackTags name description).length ∧
      (generateFallbackTags name description).length ≤ 5 := by
  unfold generateFallbackTags
  constructor
  · rw [List.length_take]
    refine le_min (by omega) ?_
    refine foldl_pres (P := fun acc : List Str => 1 ≤ acc.length) ?_ ?_
    · intro acc w _ hacc
      split
      · simp only [List.length_append, List.length_singleton]
        omega
      · exact hacc
    · split
      next => simp
      next hne =>
        match h : (List.foldl (fun acc kw =>
            if jsIncludes (sToLower (name ++ ' ' :: description)) kw = true ∧ kw ∉ acc
            then acc ++ [kw] else acc) [] keywords) with
        | [] => exact absurd h hne
        | x :: xs => simp
  · rw [List.length_take]
    omega

/-- When the structured strategy yields an array of strings, the parse
returns that array verbatim, truncated to five entries. -/
theorem parse_structured_eq {raw : Str} {arr : List Str} (h : structuredResult raw = some arr) :
    parseTagsFromResponse raw = Except.ok (arr.take 5) := by
  unfold structuredResult at h
  unfold parseTagsFromResponse
  cases hfb : firstBracket raw with
  | none => rw [hfb] at h; cases h
  | some b =>
    rw [hfb] at h
    dsimp only at h ⊢
    cases hjp : jsonParse b with
    | none => rw [hjp] at h; cases h
    | some v =>
      rw [hjp] at h
      dsimp only at h ⊢
      rw [h]

/-- Without a bracketed substring, the parse is the permissive stage. -/
theorem parse_no_bracket {raw : Str} (h : firstBracket raw = none) :
    parseTagsFromResponse raw = permissivePart raw := by
  unfold parseTagsFromResponse
  rw [h]

/-- A bracketed substring that is not valid JSON makes the whole parse
fail: the thrown `JSON.parse` error reaches the outer catch. -/
theorem parse_bad_json {raw b : Str} (hb : firstBracket raw = some b)
    (hj : jsonParse b = none) : parseTagsFromResponse raw = Except.error () := by
  unfold parseTagsFromResponse
  rw [hb]
  dsimp only
  rw [hj]

/-- A bracketed substring that is valid JSON but not an array of
strings falls through to the permissive stage. -/
theorem parse_not_strings {raw b : Str} {v : Json} (hb : firstBracket raw = some b)
    (hj : jsonParse b = some v) (ha : asStringArray v = none) :
    parseTagsFromResponse raw = permissivePart raw := by
  unfold parseTagsFromResponse
  rw [hb]
  dsimp only
  rw [hj]
  dsimp only
  rw [ha]

/-- Case analysis of a failed structured strategy. -/
theorem structuredResult_none_cases {raw : Str} (h : structuredResult raw = none) :
    firstBracket raw = none ∨
      (∃ b, firstBracket raw = some b ∧ jsonParse b = none) ∨
      (∃ b v, firstBracket raw = some b ∧ jsonParse b = some v ∧ asStringArray v = none) := by
  unfold structuredResult at h
  cases hfb : firstBracket raw with
  | none => exact Or.inl rfl
  | some b =>
    rw [hfb] at h
    dsimp only at h
    cases hjp : jsonParse b with
    | none => exact Or.inr (Or.inl ⟨b, by simp [hfb], by simp [hjp]⟩)
    | some v =>
      rw [hjp] at h
      dsimp only at h
      exact Or.inr (Or.inr ⟨b, v, by simp [hfb], by simp [hjp], h⟩)

/-- When the structured strategy fails, the parse is either the
`JSON.parse` failure or the permissive stage. -/
theorem parse_unstructured {raw : Str} (h : structuredResult raw = none) :
    parseTagsFromResponse raw = Except.error () ∨
      parseTagsFromResponse raw = permissivePart raw := by
  rcases structuredResult_none_cases h with hfb | ⟨b, hb, hj⟩ | ⟨b, v, hb, hj, ha⟩
  · exact Or.inr (parse_no_bracket hfb)
  · exact Or.inl (parse_bad_json hb hj)
  · exact Or.inr (parse_not_strings hb hj ha)

/-- Successful permissive stage: at least one tag was scanned and the
first five are returned. -/
theorem permissivePart_ok {raw : Str} {ts : List Str}
    (h : permissivePart raw = Except.ok ts) :
    permissiveScan raw ≠ [] ∧ ts = (permissiveScan raw).take 5 := by
  unfold permissivePart at h
  dsimp only at h
  split at h
  next hl =>
    cases h
    exact ⟨List.length_pos.mp hl, rfl⟩
  next => cases h

/-- The permissive stage fails exactly on an empty scan. -/
theorem permissivePart_error_iff {raw : Str} :
    permissivePart raw = Except.error () ↔ permissiveScan raw = [] := by
  unfold permissivePart
  dsimp only
  constructor
  · intro h
    split at h
    next hl => cases h
    next hl =>
      cases hs : permissiveScan raw with
      | nil => rfl
      | cons x xs => rw [hs] at hl; simp at hl
  · intro h
    rw [h]
    rfl

/-- Shape of every successful parse: either the structured array
verbatim, or the non-empty permissive scan, both truncated to five. -/
theorem parse_ok_shape {raw : Str} {ts : List Str}
    (h : parseTagsFromResponse raw = Except.ok ts) :
    (∃ arr, structuredResult raw = some arr ∧ ts = arr.take 5) ∨
      (structuredResult raw = none ∧ permissiveScan raw ≠ [] ∧
        ts = (permissiveScan raw).take 5) := by
  cases hs : structuredResult raw with
  | some arr =>
    have := parse_structured_eq hs
    rw [h] at this
    cases this
    exact Or.inl ⟨arr, rfl, rfl⟩
  | none =>
    rcases parse_unstructured hs with herr | hperm
    · rw [h] at herr; cases herr
    · rw [h] at hperm
      rcases permissivePart_ok hperm.symm with ⟨hne, hts⟩
      exact Or.inr ⟨rfl, hne, hts⟩

/-- Exact failure characterization of the parser: it throws exactly
when the bracketed substring is invalid JSON, or when the structured
strategy fails and the permissive scan finds nothing. -/
theorem parse_error_iff (raw : Str) :
    parseTagsFromResponse raw = Except.error () ↔
      ((∃ b, firstBracket raw = some b ∧ jsonParse b = none) ∨
        (structuredResult raw = none ∧ permissiveScan raw = [])) := by
  constructor
  · intro h
    cases hs : structuredResult raw with
    | some arr =>
      have := parse_structured_eq hs
      rw [h] at this
      cases this
    | none =>
      rcases structuredResult_none_cases hs with hfb | ⟨b, hb, hj⟩ | ⟨b, v, hb, hj, ha⟩
      · rw [parse_no_bracket hfb] at h
        exact Or.inr ⟨by simp [hs], permissivePart_error_iff.mp h⟩
      · exact Or.inl ⟨b, hb, hj⟩
      · rw [parse_not_strings hb hj ha] at h
        exact Or.inr ⟨by simp [hs], permissivePart_error_iff.mp h⟩
  · intro h
    rcases h with ⟨b, hb, hj⟩ | ⟨hs, hscan⟩
    · exact parse_bad_json hb hj
    · rcases parse_unstructured hs with herr | hperm
      · exact herr
      · rw [hperm]
        exact permissivePart_error_iff.mpr hscan

/-- A successful parse never returns more than five tags. -/
theorem parse_ok_length {raw : Str} {ts : List Str}
    (h : parseTagsFromResponse raw = Except.ok ts) : ts.length ≤ 5 := by
  rcases parse_ok_shape h with ⟨arr, _, hts⟩ | ⟨_, _, hts⟩ <;>
    (subst hts; rw [List.length_take]; omega)

/-- Bundle of the fallback facts used by the orchestrator claims. -/
theorem fallback_facts (name description : Str) :
    (generateFallbackTags name description).length ≤ 5 ∧
      1 ≤ (generateFallbackTags name description).length ∧
      (∀ t ∈ generateFallbackTags name description, t ≠ []) ∧
      (generateFallbackTags name description).Nodup :=
  ⟨(generateFallbackTags_length name description).2,
   (generateFallbackTags_length name description).1,
   (generateFallbackTags_inv name description).2,
   (generateFallbackTags_inv name description).1⟩

/-! ### Claim theorems -/

/-- C1 (corrected, counterexample): with the model replying the raw
text consisting of an empty JSON array, `suggestTags` returns the empty
list, refuting the claimed lower bound of one tag. -/
theorem c1_counterexample :
    suggestTags (S "Phone") (S "desc") (ModelResult.success (S "[]")) = [] ∧
      ¬ 1 ≤ (suggestTags (S "Phone") (S "desc") (ModelResult.success (S "[]"))).length :=
  ⟨by rfl, by decide⟩

/-- C1 (amended): for every valid input and every Model Client outcome,
`suggestTags` returns at most five tags; and whenever the result is not
the verbatim output of the structured JSON path (model failure,
fallback, or the permissive parse), it contains between one and five
non-empty tags. -/
theorem c1_bounded_output (name description : Str) (outcome : ModelResult) :
    (suggestTags name description outcome).length ≤ 5 ∧
      (viaStructured outcome = false →
        1 ≤ (suggestTags name description outcome).length ∧
          ∀ t ∈ suggestTags name description outcome, t ≠ []) := by
  cases outcome with
  | success raw =>
    unfold suggestTags
    dsimp only
    cases hp : parseTagsFromResponse raw with
    | error e =>
      exact ⟨(fallback_facts name description).1,
        fun _ => ⟨(fallback_facts name description).2.1, (fallback_facts name description).2.2.1⟩⟩
    | ok ts =>
      dsimp only
      refine ⟨parse_ok_length hp, ?_⟩
      intro hvs
      unfold viaStructured at hvs
      dsimp only at hvs
      cases hres : structuredResult raw with
      | some arr => rw [hres] at hvs; simp at hvs
      | none =>
        rcases parse_ok_shape hp with ⟨arr, harr, _⟩ | ⟨_, hne, hts⟩
        · rw [harr] at hres; cases hres
        · subst hts
          constructor
          · rw [List.length_take]
            have : 0 < (permissiveScan raw).length := List.length_pos.mpr hne
            omega
          · intro t ht
            exact (permissiveScan_inv raw).2 t (List.mem_of_mem_take ht)
  | networkError =>
    exact ⟨(fallback_facts name description).1,
      fun _ => ⟨(fallback_facts name description).2.1, (fallback_facts name description).2.2.1⟩⟩
  | timeout =>
    exact ⟨(fallback_facts name description).1,
      fun _ => ⟨(fallback_facts name description).2.1, (fallback_facts name description).2.2.1⟩⟩
  | badStatus status =>
    exact ⟨(fallback_facts name description).1,
      fun _ => ⟨(fallback_facts name description).2.1, (fallback_facts name description).2.2.1⟩⟩
  | badBody =>
    exact ⟨(fallback_facts name description).1,
      fun _ => ⟨(fallback_facts name description).2.1, (fallback_facts name description).2.2.1⟩⟩

/-- C1 (witness): the amended bound instantiated at a timeout of the
model call. -/
theorem c1_witness :
    viaStructured ModelResult.timeout = false ∧
      1 ≤ (suggestTags (S "Lamp") (S "desk lamp") ModelResult.timeout).length ∧
      ∀ t ∈ suggestTags (S "Lamp") (S "desk lamp") ModelResult.timeout, t ≠ [] :=
  ⟨by rfl, (c1_bounded_output (S "Lamp") (S "desk lamp") ModelResult.timeout).2 (by rfl)⟩

/-- C2 (corrected, counterexample): the structured path returns the
parsed JSON array verbatim, so a reply whose array repeats a string
makes `suggestTags` return a list with two identical entries. -/
theorem c2_counterexample :
    suggestTags (S "Mug") (S "cup") (ModelResult.success (S "[\"a\",\"a\"]")) = [S "a", S "a"] ∧
      ¬ (suggestTags (S "Mug") (S "cup") (ModelResult.success (S "[\"a\",\"a\"]"))).Nodup :=
  ⟨by rfl, by decide⟩

/-- C2 (amended): whenever the returned list is not the verbatim output
of the structured JSON path, it contains no two identical strings. -/
theorem c2_no_duplicates (name description : Str) (outcome : ModelResult)
    (h : viaStructured outcome = false) :
    (suggestTags name description outcome).Nodup := by
  cases outcome with
  | success raw =>
    unfold suggestTags
    dsimp only
    cases hp : parseTagsFromResponse raw with
    | error e =>
      exact (fallback_facts name description).2.2.2
    | ok ts =>
      dsimp only
      unfold viaStructured at h
      dsimp only at h
      cases hres : structuredResult raw with
      | some arr => rw [hres] at h; simp at h
      | none =>
        rcases parse_ok_shape hp with ⟨arr, harr, _⟩ | ⟨_, _, hts⟩
        · rw [harr] at hres; cases hres
        · subst hts
          exact (List.take_sublist _ _).nodup (permissiveScan_inv raw).1
  | networkError => exact (fallback_facts name description).2.2.2
  | timeout => exact (fallback_facts name description).2.2.2
  | badStatus status => exact (fallback_facts name description).2.2.2
  | badBody => exact (fallback_facts name description).2.2.2

/-- C2 (witness): the amended no-duplicates property instantiated at a
network error of the model call. -/
theorem c2_witness :
    viaStructured ModelResult.networkError = false ∧
      (suggestTags (S "Pen") (S "ballpoint") ModelResult.networkError).Nodup :=
  ⟨by rfl, c2_no_duplicates (S "Pen") (S "ballpoint") ModelResult.networkError (by rfl)⟩

/-- C3 (confirmed): `suggestTags` always returns normally — for every
input and Model Client outcome its value is either the successfully
parsed tag list or the fallback extractor's output; every internal
failure (model failure or parse error) degrades to the fallback, which
is a total function. -/
theorem c3_never_raises (name description : Str) (outcome : ModelResult) :
    suggestTags name description outcome = generateFallbackTags name description ∨
      ∃ raw tags, outcome = ModelResult.success raw ∧
        parseTagsFromResponse raw = Except.ok tags ∧
        suggestTags name description outcome = tags := by
  cases outcome with
  | success raw =>
    cases hp : parseTagsFromResponse raw with
    | error e =>
      left
      unfold suggestTags
      dsimp only
      rw [hp]
    | ok ts =>
      right
      exact ⟨raw, ts, rfl, hp, by unfold suggestTags; dsimp only; rw [hp]⟩
  | networkError => exact Or.inl rfl
  | timeout => exact Or.inl rfl
  | badStatus status => exact Or.inl rfl
  | badBody => exact Or.inl rfl

/-- C4 (confirmed): whenever the model call fails in any way, the
result of `suggestTags` is exactly the fallback extractor's output for
the same input pair. -/
theorem c4_model_failure_fallback (name description : Str) (outcome : ModelResult)
    (h : modelFailed outcome = true) :
    suggestTags name description outcome = generateFallbackTags name description := by
  cases outcome with
  | success raw => simp [modelFailed] at h
  | networkError => rfl
  | timeout => rfl
  | badStatus status => rfl
  | badBody => rfl

/-- C4 (witness): instantiated at a non-success HTTP status. -/
theorem c4_witness :
    modelFailed (ModelResult.badStatus 500) = true ∧
      suggestTags (S "Cup") (S "a mug") (ModelResult.badStatus 500) =
        generateFallbackTags (S "Cup") (S "a mug") :=
  ⟨by rfl, c4_model_failure_fallback (S "Cup") (S "a mug") (ModelResult.badStatus 500) (by rfl)⟩

/-- C5 (corrected, counterexample): a raw text whose first bracketed
substring is not valid JSON makes the parser fail outright even though
the permissive scan of that same text would extract a tag — the
permissive strategy is not attempted. -/
theorem c5_counterexample :
    firstBracket (S "[oops] \"tag\"") = some (S "[oops]") ∧
      jsonParse (S "[oops]") = none ∧
      permissiveScan (S "[oops] \"tag\"") = [S "tag"] ∧
      parseTagsFromResponse (S "[oops] \"tag\"") = Except.error () :=
  ⟨by rfl, by rfl, by decide, by rfl⟩

/-- C5 (amended): the permissive scan is attempted exactly when no
bracketed substring exists or the first bracketed substring is valid
JSON that is not an array of strings; when that substring is invalid
JSON, the parse fails immediately without attempting the permissive
scan. -/
theorem c5_strategy_order (raw : Str) :
    (firstBracket raw = none → parseTagsFromResponse raw = permissivePart raw) ∧
      (∀ b v, firstBracket raw = some b → jsonParse b = some v → asStringArray v = none →
        parseTagsFromResponse raw = permissivePart raw) ∧
      (∀ b, firstBracket raw = some b → jsonParse b = none →
        parseTagsFromResponse raw = Except.error ()) :=
  ⟨fun h => parse_no_bracket h,
   fun _ _ hb hj ha => parse_not_strings hb hj ha,
   fun _ hb hj => parse_bad_json hb hj⟩

/-- C5 (witness): a bracket-free raw text reaches the permissive
stage. -/
theorem c5_witness :
    firstBracket (S "no brackets \"x\"") = none ∧
      parseTagsFromResponse (S "no brackets \"x\"") = permissivePart (S "no brackets \"x\"") :=
  ⟨by rfl, (c5_strategy_order (S "no brackets \"x\"")).1 (by rfl)⟩

/-- C6 (corrected, counterexample): on the raw text consisting of an
empty JSON array the parser returns normally with zero tags — no tag
was extracted by either strategy, yet no `ParseError` is raised. -/
theorem c6_counterexample :
    parseTagsFromResponse (S "[]") = Except.ok [] ∧ permissiveScan (S "[]") = [] :=
  ⟨by rfl, by rfl⟩

/-- C6 (amended): the parser fails on `I cannot help with that.`; it
fails exactly when the first bracketed substring is invalid JSON, or
when the structured strategy does not apply and the permissive scan
finds nothing; and whenever it returns normally with a result that did
not come from the structured path, that result contains at least one
tag. -/
theorem c6_parse_failure :
    parseTagsFromResponse (S "I cannot help with that.") = Except.error () ∧
      (∀ raw, parseTagsFromResponse raw = Except.error () ↔
        ((∃ b, firstBracket raw = some b ∧ jsonParse b = none) ∨
          (structuredResult raw = none ∧ permissiveScan raw = []))) ∧
      ∀ raw ts, parseTagsFromResponse raw = Except.ok ts →
        structuredResult raw = none → ts ≠ [] := by
  refine ⟨by rfl, parse_error_iff, ?_⟩
  intro raw ts hok hs
  rcases parse_ok_shape hok with ⟨arr, harr, _⟩ | ⟨_, hne, hts⟩
  · rw [harr] at hs; cases hs
  · subst hts
    have hpos : 0 < (permissiveScan raw).length := List.length_pos.mpr hne
    have : 0 < ((permissiveScan raw).take 5).length := by
      rw [List.length_take]
      omega
    exact List.length_pos.mp this

/-- C6 (witness): a permissive-path success yields a non-empty list. -/
theorem c6_witness :
    parseTagsFromResponse (S "some \"ok\" text") = Except.ok [S "ok"] ∧
      structuredResult (S "some \"ok\" text") = none ∧ ([S "ok"] : List Str) ≠ [] :=
  ⟨by rfl, by rfl,
    c6_parse_failure.2.2 (S "some \"ok\" text") [S "ok"] (by rfl) (by rfl)⟩

/-- C7 (confirmed): the canonical structured reply parses via the
structured strategy to exactly the five listed tags, in order. -/
theorem c7_structured_example :
    parseTagsFromResponse
        (S "Here are tags: [\"audio\",\"wireless\",\"bluetooth\",\"portable\",\"smart\"]") =
      Except.ok [S "audio", S "wireless", S "bluetooth", S "portable", S "smart"] := by
  rfl

/-- C8 (confirmed): with no vocabulary keyword in the haystack, the
fallback returns the three generic baseline tags followed by the single
qualifying name token. -/
theorem c8_fallback_baseline :
    generateFallbackTags (S "Xyzzyx") (S "Qwerty") =
      [S "product", S "item", S "merchandise", S "xyzzyx"] := by
  decide

/-- C9 (confirmed): the fallback extractor is a pure function of its
argument pair — two invocations on equal inputs return identical
lists. -/
theorem c9_fallback_deterministic (n₁ d₁ n₂ d₂ : Str) (hn : n₁ = n₂) (hd : d₁ = d₂) :
    generateFallbackTags n₁ d₁ = generateFallbackTags n₂ d₂ := by
  rw [hn, hd]

/-- C9 (witness): determinism instantiated at a concrete input pair. -/
theorem c9_witness :
    (S "Cup") = (S "Cup") ∧ (S "blue mug") = (S "blue mug") ∧
      generateFallbackTags (S "Cup") (S "blue mug") =
        generateFallbackTags (S "Cup") (S "blue mug") :=
  ⟨rfl, rfl, c9_fallback_deterministic (S "Cup") (S "blue mug") (S "Cup") (S "blue mug") rfl rfl⟩

/-- C10 (confirmed): every tag produced by the fallback extractor is a
non-empty, fully lowercase string, whether it comes from the keyword
vocabulary, the generic baseline, or a tokenized name word. -/
theorem c10_fallback_wellformed (name description t : Str)
    (h : t ∈ generateFallbackTags name description) :
    t ≠ [] ∧ sToLower t = t := by
  rcases generateFallbackTags_mem h with hk | hb | ⟨hmem, hlen⟩
  · exact keywords_wellformed t hk
  · exact baseline_wellformed.1 t hb
  · constructor
    · intro hnil
      subst hnil
      simp at hlen
    · refine map_id_of_mem ?_
      intro c hc
      have hcs := splitSeps_chars hmem c hc
      unfold sToLower at hcs
      rcases List.mem_map.mp hcs with ⟨c0, _, hc0⟩
      subst hc0
      exact toLower_idem c0

/-- C10 (witness): instantiated at the baseline example's name token. -/
theorem c10_witness :
    (S "xyzzyx") ∈ generateFallbackTags (S "Xyzzyx") (S "Qwerty") ∧
      (S "xyzzyx") ≠ [] ∧ sToLower (S "xyzzyx") = (S "xyzzyx") :=
  ⟨by decide, c10_fallback_wellformed (S "Xyzzyx") (S "Qwerty") (S "xyzzyx") (by decide)⟩

end AiService
